import Mathlib

/-!
Verification of the city-suggestion engine of `internal/app/challenge/cityRepository.go`.

Modelling conventions (shallow embedding of the Go source):

* A Go record (one row of the gazetteer table) is a `List String`; the record store is a
  `List (List String)` in scan order.
* Go strings are modelled at the rune level: a `String`'s `data : List Char` plays the role
  of the rune sequence, and all indices are rune indices.  This is exact for ASCII data
  (`strings.Index` returns a byte index in Go, which coincides with the rune index there).
* Go `float64` arithmetic is modelled exactly over `ℚ`.  The arithmetic is written with the
  kernel-computable wrappers `qAdd`, `qSub`, `qMul`, `qDiv`, `qAbs`, `qNeg`, `qPow10`
  (plain definitions over `Rat.divInt`/`mkRat`), each proved equal to the corresponding
  standard `ℚ` operation below, so that concrete runs of the model evaluate by `decide`.
* `strconv.ParseFloat` is modelled by an exact decimal parser (`parseFloat?`) covering the
  base-10 syntax `[+|-] digits [. digits] [(e|E) [+|-] digits]` that the repository's data
  and queries use (hex floats, inf/nan, underscores and overflow to infinities are outside
  the model).
* An abnormal termination of the Go code (an out-of-range index or slice bound, which
  cannot return normally at runtime) is modelled by `Option`: the embedded function
  returns `none` exactly where the Go code would abort.
-/

/-! ### Kernel-computable exact rational arithmetic -/

/-- Exact rational addition, written so that it evaluates by kernel reduction. -/
def qAdd (a b : ℚ) : ℚ := Rat.divInt (a.num * b.den + b.num * a.den) (a.den * b.den)

/-- Exact rational subtraction. -/
def qSub (a b : ℚ) : ℚ := Rat.divInt (a.num * b.den - b.num * a.den) (a.den * b.den)

/-- Exact rational multiplication. -/
def qMul (a b : ℚ) : ℚ := Rat.divInt (a.num * b.num) (a.den * b.den)

/-- Exact rational division (division by zero yields zero, as for `ℚ`). -/
def qDiv (a b : ℚ) : ℚ := Rat.divInt (a.num * b.den) (a.den * b.num)

/-- Exact rational negation. -/
def qNeg (a : ℚ) : ℚ := Rat.divInt (-a.num) (a.den : Int)

/-- Exact rational absolute value. -/
def qAbs (a : ℚ) : ℚ := Rat.divInt (a.num.natAbs : Int) (a.den : Int)

/-- Exact power of ten. -/
def qPow10 (n : Nat) : ℚ := mkRat (10 ^ n : Nat) 1

theorem num_mul_den (a : ℚ) : (a.num : ℚ) = a * (a.den : ℚ) :=
  (div_eq_iff (by positivity)).mp (Rat.num_div_den a)

theorem qAdd_eq (a b : ℚ) : qAdd a b = a + b := by
  rw [qAdd, Rat.divInt_eq_div]
  push_cast
  rw [num_mul_den a, num_mul_den b, div_eq_iff (by positivity)]
  ring

theorem qSub_eq (a b : ℚ) : qSub a b = a - b := by
  rw [qSub, Rat.divInt_eq_div]
  push_cast
  rw [num_mul_den a, num_mul_den b, div_eq_iff (by positivity)]
  ring

theorem qMul_eq (a b : ℚ) : qMul a b = a * b := by
  rw [qMul, Rat.divInt_eq_div]
  push_cast
  rw [num_mul_den a, num_mul_den b, div_eq_iff (by positivity)]
  ring

theorem qDiv_eq (a b : ℚ) : qDiv a b = a / b := by
  rw [qDiv, Rat.divInt_eq_div]
  rcases eq_or_ne b 0 with rfl | hb
  · simp
  · have hbn : ((b.num : ℚ)) ≠ 0 := by
      simpa using Rat.num_ne_zero.mpr hb
    push_cast
    rw [div_eq_div_iff (mul_ne_zero (by positivity) hbn) hb, num_mul_den a, num_mul_den b]
    ring

theorem qNeg_eq (a : ℚ) : qNeg a = -a := by
  rw [qNeg, ← Rat.neg_divInt, Rat.num_divInt_den]

theorem qAbs_eq (a : ℚ) : qAbs a = |a| := by
  rcases le_or_lt 0 a with h | h
  · rw [qAbs, Int.natAbs_of_nonneg (Rat.num_nonneg.mpr h), abs_of_nonneg h, Rat.num_divInt_den]
  · rw [qAbs, Int.ofNat_natAbs_of_nonpos (le_of_lt (Rat.num_neg.mpr h)), abs_of_neg h,
      ← Rat.neg_divInt, Rat.num_divInt_den]

theorem qPow10_eq (n : Nat) : qPow10 n = (10 : ℚ) ^ n := by
  rw [qPow10, Rat.mkRat_eq_div]
  push_cast
  simp

/-! ### Field indices (constants of cityRepository.go) -/

def cityNameIndex : Nat := 1

def cityASCIINameIndex : Nat := 2

def cityAlernateNamesIndex : Nat := 3

def cityLatitudeIndex : Nat := 4

def cityLongitudeIndex : Nat := 5

def cityCountryCodeIndex : Nat := 8

def cityAdminLevel1CodeIndex : Nat := 10

/-! ### Data model (struct shapes as used by cityRepository.go) -/

/-- Query struct: `cityQuery{name, latitude, longitude}`, all raw strings. -/
structure cityQuery where
  name : String
  latitude : String
  longitude : String
deriving DecidableEq

/-- Suggestion struct (Go `match`; renamed because `match` is a Lean keyword).
Field order: Name, Latitude, Longitude, Score. -/
structure Match where
  Name : String
  Latitude : ℚ
  Longitude : ℚ
  Score : ℚ
deriving DecidableEq

/-- Result struct: `suggestions{Suggestions: []match}`. -/
structure suggestions where
  Suggestions : List Match
deriving DecidableEq

/-! ### String primitives (models of the Go standard library functions used) -/

/-- Model of `strings.ToLower`: per-rune lowercasing (exact on ASCII data). -/
def goToLower (s : String) : String := ⟨s.data.map Char.toLower⟩

/-- Model of `strings.Contains s sub`: `sub` occurs contiguously in `s`. -/
def strContains (s sub : String) : Bool := decide (sub.data <:+: s.data)

/-- Model of `strings.Index` at rune level: index of the first occurrence of `sub` in `s`,
`none` when absent (Go returns -1; the repository only uses the index after a successful
`strings.Contains`). -/
def goIndex : List Char → List Char → Option Nat
  | s, sub =>
    if sub <+: s then some 0
    else
      match s with
      | [] => none
      | _ :: t => (goIndex t sub).map (· + 1)

/-- Value of a digit string, most significant digit first. -/
def digitsToNat (ds : List Char) : Nat :=
  ds.foldl (fun acc c => acc * 10 + (c.toNat - 48)) 0

/-- Scale a rational by a (possibly negative) power of ten. -/
def applyExp (q : ℚ) (e : Int) : ℚ :=
  if 0 ≤ e then qMul q (qPow10 e.toNat) else qDiv q (qPow10 (-e).toNat)

/-- Optional sign of the mantissa (`true` = negative). -/
def parseSign : List Char → Bool × List Char
  | '+' :: t => (false, t)
  | '-' :: t => (true, t)
  | t => (false, t)

/-- Optional sign of the exponent. -/
def parseExpSign : List Char → Int × List Char
  | '+' :: t => (1, t)
  | '-' :: t => (-1, t)
  | t => (1, t)

/-- Exponent tail of a float literal: requires at least one digit and no trailing input. -/
def parseExpTail (neg : Bool) (mant : ℚ) (t : List Char) : Option ℚ :=
  let st := parseExpSign t
  let dt := st.2.span Char.isDigit
  if dt.1.isEmpty || !dt.2.isEmpty then none
  else
    let v := applyExp mant (st.1 * (digitsToNat dt.1 : Int))
    some (if neg then qNeg v else v)

/-- Model of `strconv.ParseFloat` (base-10 syntax, exact value over `ℚ`).
Requires at least one digit in the integer or fraction part and no trailing input. -/
def parseFloatChars? (cs : List Char) : Option ℚ :=
  let sc := parseSign cs
  let ic := sc.2.span Char.isDigit
  let fc : List Char × List Char :=
    match ic.2 with
    | '.' :: t => t.span Char.isDigit
    | t => ([], t)
  if ic.1.isEmpty && fc.1.isEmpty then none
  else
    let mant : ℚ := qAdd (digitsToNat ic.1 : ℚ) (qDiv (digitsToNat fc.1 : ℚ) (qPow10 fc.1.length))
    match fc.2 with
    | [] => some (if sc.1 then qNeg mant else mant)
    | 'e' :: t => parseExpTail sc.1 mant t
    | 'E' :: t => parseExpTail sc.1 mant t
    | _ => none

/-- Model of `strconv.ParseFloat` on a `String`. -/
def parseFloat? (s : String) : Option ℚ := parseFloatChars? s.data

/-! ### Record field accessors (cityRepository.go lines 180-215) -/

/-- `fetchCityNameOf`: field 1, defaulting to "-" on a short row. -/
def fetchCityNameOf (record : List String) : String :=
  if h : cityNameIndex < record.length then record[cityNameIndex] else "-"

/-- `fetchCountryNameOf`: field 8, defaulting to "-" on a short row. -/
def fetchCountryNameOf (record : List String) : String :=
  if h : cityCountryCodeIndex < record.length then record[cityCountryCodeIndex] else "-"

/-- `fetchFirstAdministrationLevelOf`: field 10, defaulting to "-" on a short row. -/
def fetchFirstAdministrationLevelOf (record : List String) : String :=
  if h : cityAdminLevel1CodeIndex < record.length then record[cityAdminLevel1CodeIndex] else "-"

/-- `fetchLatitude`: field 4 parsed as a float; 0.0 on a short row, and 0.0 when the field
does not parse (Go's `ParseFloat` returns 0 alongside the ignored error). -/
def fetchLatitude (record : List String) : ℚ :=
  if h : cityLatitudeIndex < record.length then
    (parseFloat? record[cityLatitudeIndex]).getD 0
  else 0

/-- `fetchLongitude`: field 5 parsed as a float; 0.0 on a short row or parse failure. -/
def fetchLongitude (record : List String) : ℚ :=
  if h : cityLongitudeIndex < record.length then
    (parseFloat? record[cityLongitudeIndex]).getD 0
  else 0

example : parseFloat? "48.8566" = some (mkRat 488566 10000) := by decide
example : parseFloat? "" = none := by decide
example : parseFloat? "-12e-2" = some (mkRat (-12) 100) := by decide
example : parseFloat? "abc" = none := by decide
example : parseFloat? "4." = some 4 := by decide
example : parseFloat? ".5" = some (mkRat 1 2) := by decide
example : parseFloat? "1e" = none := by decide
example : parseFloat? "+3E2" = some 300 := by decide

/-! ### Scoring (cityRepository.go lines 111-144) -/

/-- `computeMatchingCharWeight`: rune count of the query name over rune count of the
matched word (`utf8.RuneCountInString` counts code points, i.e. `data.length` here). -/
def computeMatchingCharWeight (queryName matchedWord : String) : ℚ :=
  qDiv (queryName.data.length : ℚ) (matchedWord.data.length : ℚ)

/-- `computeLatitudeScoreWeight`: `1 - |queryLatitude - recordLatitude| / 180` when the
query's latitude string parses, else the neutral weight 1. -/
def computeLatitudeScoreWeight (query : cityQuery) (record : List String) : ℚ :=
  match parseFloat? query.latitude with
  | some queryLatitude =>
      qSub 1 (qDiv (qAbs (qSub queryLatitude (fetchLatitude record))) 180)
  | none => 1

/-- `computeLongitudeScoreWeight`: as for latitude, with divisor 360. -/
def computeLongitudeScoreWeight (query : cityQuery) (record : List String) : ℚ :=
  match parseFloat? query.longitude with
  | some queryLongitude =>
      qSub 1 (qDiv (qAbs (qSub queryLongitude (fetchLongitude record))) 360)
  | none => 1

/-- `computeScoreFor`: product of the three weights. -/
def computeScoreFor (query : cityQuery) (matchedWord : String) (record : List String) : ℚ :=
  qMul (qMul (computeMatchingCharWeight query.name matchedWord)
      (computeLatitudeScoreWeight query record))
    (computeLongitudeScoreWeight query record)

/-! ### Alternate-name whole-word extraction (cityRepository.go lines 146-178) -/

/-- `findAlternateNameWordStartIndex`: scan left from the match start; stop just after a
comma or at the start of the string.  The character at the scan position is inspected
only while the position is positive, exactly as in the Go loop. -/
def findAlternateNameWordStartIndex (alternateNames : List Char) : Nat → Nat
  | 0 => 0
  | i + 1 =>
    if alternateNames.getD (i + 1) ' ' = ',' then i + 2
    else findAlternateNameWordStartIndex alternateNames i

/-- Rightward scan over the characters at positions `i, i+1, ...` (given as the list
suffix): stop just before the first comma, or past the last position when no comma
follows. -/
def findAlternateNameWordEndLoop : List Char → Nat → Nat
  | [], i => i
  | c :: rest, i => if c = ',' then i - 1 else findAlternateNameWordEndLoop rest (i + 1)

/-- `findAlternateNameWordEndIndex`: scan right from the position just after the match;
stop just before a comma, or — when no comma follows — return the full length of the
rune slice (the Go loop runs off the end). -/
def findAlternateNameWordEndIndex (alternateNames : List Char) (i : Nat) : Nat :=
  findAlternateNameWordEndLoop (alternateNames.drop i) i

/-- `findMatchingAlternateNameWholeWord`: extract the comma-delimited token around the
first occurrence of the query name.  The Go code slices
`alternateNames[indexWordStart : indexWordEnd+1]`; a slice bound beyond the rune-slice
length cannot return normally (modelled as `none`). -/
def findMatchingAlternateNameWholeWord (recordAlternateNames queryName : String) : Option String :=
  match goIndex (goToLower recordAlternateNames).data queryName.data with
  | none => none
  | some indexMatch =>
    let alternateNames := recordAlternateNames.data
    let indexWordStart := findAlternateNameWordStartIndex alternateNames indexMatch
    let indexWordEnd :=
      findAlternateNameWordEndIndex alternateNames (indexMatch + queryName.data.length)
    if indexWordStart ≤ indexWordEnd + 1 ∧ indexWordEnd + 1 ≤ alternateNames.length then
      some ⟨(alternateNames.drop indexWordStart).take (indexWordEnd + 1 - indexWordStart)⟩
    else none

/-! ### Matching (cityRepository.go lines 95-109) -/

/-- `matchQueryName`: test the lower-cased query name as a substring of the primary name,
then the ASCII name, then the alternate names, in that order; the first matching field
fixes the matched word used for scoring.  The ASCII-name and alternate-names fields are
read by direct indexing in Go (`record[cityASCIINameIndex]`,
`record[cityAlernateNamesIndex]`), which cannot return normally on a short row
(modelled as `none`). -/
def matchQueryName (record : List String) (query : cityQuery) : Option (Bool × ℚ) :=
  if strContains (goToLower (fetchCityNameOf record)) query.name then
    some (true, computeScoreFor query (fetchCityNameOf record) record)
  else
    match record[cityASCIINameIndex]? with
    | none => none
    | some asciiName =>
      if strContains (goToLower asciiName) query.name then
        some (true, computeScoreFor query asciiName record)
      else
        match record[cityAlernateNamesIndex]? with
        | none => none
        | some alternateNames =>
          if strContains (goToLower alternateNames) query.name then
            match findMatchingAlternateNameWholeWord alternateNames query.name with
            | none => none
            | some matchedWholeWord =>
                some (true, computeScoreFor query matchedWholeWord record)
          else some (false, 0)

/-! ### Suggestion scan and ranking (cityRepository.go lines 60-93) -/

/-- Loop body of `findSuggestionsFor`: scan the records in store order, appending a
suggestion for every matched record. -/
def suggestionsLoop (q : cityQuery) : List (List String) → Option (List Match)
  | [] => some []
  | record :: rest =>
    match matchQueryName record q with
    | none => none
    | some (matched, score) =>
      match suggestionsLoop q rest with
      | none => none
      | some tail =>
        if matched then
          some (⟨fetchCityNameOf record ++ ", " ++ fetchFirstAdministrationLevelOf record
                  ++ ", " ++ fetchCountryNameOf record,
                 fetchLatitude record, fetchLongitude record, score⟩ :: tail)
        else some tail

/-- `findSuggestionsFor`: empty query name short-circuits to the empty list; otherwise the
query name is lower-cased once and every record is scanned. -/
def findSuggestionsFor (records : List (List String)) (query : cityQuery) : Option suggestions :=
  if query.name = "" then some ⟨[]⟩
  else
    (suggestionsLoop ⟨goToLower query.name, query.latitude, query.longitude⟩ records).map
      fun l => ⟨l⟩

/-- Stable insertion of a suggestion into a score-descending list: `x` goes before the
first element whose score is not greater than `x`'s (so existing elements with an equal
score stay in front — elements processed later in `sortDesc` come from earlier positions,
hence this realizes the stability of Go's `sort.SliceStable`). -/
def insertDesc (x : Match) : List Match → List Match
  | [] => [x]
  | y :: ys => if y.Score ≤ x.Score then x :: y :: ys else y :: insertDesc x ys

/-- Model of `sort.SliceStable(suggestions, less)` with `less i j := Score i > Score j`:
a stable sort producing a score-descending list.  Stability and sortedness (proved below)
characterize the result of `sort.SliceStable` uniquely. -/
def sortDesc : List Match → List Match
  | [] => []
  | x :: xs => insertDesc x (sortDesc xs)

/-- `FindRankedSuggestionsFor`: scan, then stable-sort by descending score. -/
def FindRankedSuggestionsFor (records : List (List String)) (query : cityQuery) :
    Option suggestions :=
  (findSuggestionsFor records query).map fun s => ⟨sortDesc s.Suggestions⟩

/-! ### Sortedness and stability of the ranking -/

/-- Score-descending order together with stability: every score class appears in the
output in exactly the order it has in the input.  Sortedness plus stability characterize
the permutation produced by Go's `sort.SliceStable` uniquely. -/
def StableDescOf (raw out : List Match) : Prop :=
  out.Pairwise (fun a b => b.Score ≤ a.Score) ∧
  ∀ c : ℚ, out.filter (fun m => decide (m.Score = c)) =
    raw.filter (fun m => decide (m.Score = c))

theorem mem_insertDesc {z x : Match} {l : List Match} :
    z ∈ insertDesc x l ↔ z = x ∨ z ∈ l := by
  induction l with
  | nil => simp [insertDesc]
  | cons y ys ih =>
    rw [insertDesc]
    by_cases hc : y.Score ≤ x.Score
    · simp [hc]
    · simp [hc, ih]
      tauto

theorem insertDesc_pairwise (x : Match) {l : List Match}
    (h : l.Pairwise (fun a b => b.Score ≤ a.Score)) :
    (insertDesc x l).Pairwise (fun a b => b.Score ≤ a.Score) := by
  induction l with
  | nil => simp [insertDesc]
  | cons y ys ih =>
    rw [insertDesc]
    by_cases hc : y.Score ≤ x.Score
    · rw [if_pos hc]
      refine List.Pairwise.cons ?_ h
      intro z hz
      rcases List.mem_cons.mp hz with rfl | hz'
      · exact hc
      · exact le_trans ((List.pairwise_cons.mp h).1 z hz') hc
    · rw [if_neg hc]
      refine List.Pairwise.cons ?_ (ih (List.pairwise_cons.mp h).2)
      intro z hz
      rcases mem_insertDesc.mp hz with rfl | hz'
      · exact le_of_lt (lt_of_not_le hc)
      · exact (List.pairwise_cons.mp h).1 z hz'

theorem sortDesc_pairwise (l : List Match) :
    (sortDesc l).Pairwise (fun a b => b.Score ≤ a.Score) := by
  induction l with
  | nil => simp [sortDesc]
  | cons x xs ih => exact insertDesc_pairwise x ih

theorem filter_insertDesc_eq {x : Match} (l : List Match) {c : ℚ} (hx : x.Score = c) :
    (insertDesc x l).filter (fun m => decide (m.Score = c)) =
      x :: l.filter (fun m => decide (m.Score = c)) := by
  induction l with
  | nil => simp [insertDesc, List.filter, hx]
  | cons y ys ih =>
    rw [insertDesc]
    have hxd : (decide (x.Score = c)) = true := decide_eq_true hx
    by_cases hc : y.Score ≤ x.Score
    · rw [if_pos hc, List.filter_cons, hxd]
      simp
    · have hy : ¬ (y.Score = c) := fun hyc => hc (le_of_eq (hyc.trans hx.symm))
      have hyd : (decide (y.Score = c)) = false := decide_eq_false hy
      rw [if_neg hc, List.filter_cons, List.filter_cons, hyd]
      simp [ih]

theorem filter_insertDesc_ne {x : Match} (l : List Match) {c : ℚ} (hx : ¬ x.Score = c) :
    (insertDesc x l).filter (fun m => decide (m.Score = c)) =
      l.filter (fun m => decide (m.Score = c)) := by
  induction l with
  | nil => simp [insertDesc, List.filter, hx]
  | cons y ys ih =>
    rw [insertDesc]
    have hxd : (decide (x.Score = c)) = false := decide_eq_false hx
    by_cases hc : y.Score ≤ x.Score
    · rw [if_pos hc, List.filter_cons, hxd]
      simp
    · rw [if_neg hc, List.filter_cons, List.filter_cons, ih]

theorem filter_sortDesc (l : List Match) (c : ℚ) :
    (sortDesc l).filter (fun m => decide (m.Score = c)) =
      l.filter (fun m => decide (m.Score = c)) := by
  induction l with
  | nil => rfl
  | cons x xs ih =>
    rw [sortDesc]
    by_cases hx : x.Score = c
    · rw [filter_insertDesc_eq _ hx, ih, List.filter_cons, if_pos (by simpa using hx)]
    · rw [filter_insertDesc_ne _ hx, ih, List.filter_cons, if_neg (by simpa using hx)]

theorem sortDesc_stableDescOf (l : List Match) : StableDescOf l (sortDesc l) :=
  ⟨sortDesc_pairwise l, fun c => filter_sortDesc l c⟩

/-- Lower-casing a string lower-cases each rune, so it maps contiguous substrings to
contiguous substrings. -/
theorem infixOfMap {f : Char → Char} {l₁ l₂ : List Char} (h : l₁ <:+: l₂) :
    l₁.map f <:+: l₂.map f := by
  obtain ⟨u, v, rfl⟩ := h
  exact ⟨u.map f, v.map f, by simp⟩

/-! ### Claims -/

/-- C1: the claim says a short row (fewer than 11 fields) never causes a failure because
every field access degrades to a default, including the ASCII-name and alternate-names
accesses performed during matching.  The code contradicts this: `matchQueryName` reads
`record[cityASCIINameIndex]` and `record[cityAlernateNamesIndex]` by direct indexing, so
a two-field record whose primary name does not contain the query aborts instead of
degrading — here on the record `["x", "Foo"]` with query name "zzz". -/
theorem shortRow_matching_aborts :
    matchQueryName ["x", "Foo"] ⟨"zzz", "", ""⟩ = none ∧
    findSuggestionsFor [["x", "Foo"]] ⟨"zzz", "", ""⟩ = none := by decide

/-- C2: the claim says an alternate-names match always scores against exactly the
comma-delimited token containing the match.  That holds when a comma follows the token
(query "field" extracts "Springfield"), but for a match inside the final token the Go
end-index loop runs off the end of the rune slice and returns its full length, making
the subsequent slice `alternateNames[start : length+1]` exceed the slice bounds (query
"new", whose token "New Springfield" ends the field, aborts instead of scoring). -/
theorem alternateName_extraction_eval :
    findMatchingAlternateNameWholeWord "Springfield,Springfield Town,New Springfield"
      "field" = some "Springfield" ∧
    findMatchingAlternateNameWholeWord "Springfield,Springfield Town,New Springfield"
      "new" = none ∧
    findSuggestionsFor [["0", "A", "B", "Springfield,Springfield Town,New Springfield"]]
      ⟨"new", "", ""⟩ = none := by decide

/-- C3: whenever `FindRankedSuggestionsFor` returns a suggestion list, that list is the
scan result sorted by score in descending order, and the sort is stable: every score
class keeps the relative order it had in the record-scan output, with no secondary key. -/
theorem rankedSuggestions_sorted_stable (records : List (List String)) (query : cityQuery)
    (s : suggestions) (h : FindRankedSuggestionsFor records query = some s) :
    ∃ raw, findSuggestionsFor records query = some raw ∧
      StableDescOf raw.Suggestions s.Suggestions := by
  rw [FindRankedSuggestionsFor] at h
  cases hr : findSuggestionsFor records query with
  | none => rw [hr] at h; exact absurd h (by simp)
  | some raw =>
    rw [hr] at h
    simp only [Option.map_some'] at h
    obtain rfl : (⟨sortDesc raw.Suggestions⟩ : suggestions) = s := Option.some.inj h
    exact ⟨raw, rfl, sortDesc_stableDescOf raw.Suggestions⟩

/-- Witness for C3 on a store with two tied matches: the tie keeps scan order. -/
theorem rankedSuggestions_sorted_stable_witness :
    ∃ raw, findSuggestionsFor [["0", "Ba"], ["1", "Bb"]] ⟨"b", "", ""⟩ = some raw ∧
      StableDescOf raw.Suggestions
        [⟨"Ba, -, -", 0, 0, mkRat 1 2⟩, ⟨"Bb, -, -", 0, 0, mkRat 1 2⟩] :=
  rankedSuggestions_sorted_stable [["0", "Ba"], ["1", "Bb"]] ⟨"b", "", ""⟩
    ⟨[⟨"Ba, -, -", 0, 0, mkRat 1 2⟩, ⟨"Bb, -, -", 0, 0, mkRat 1 2⟩]⟩ (by decide)

/-- C4: the latitude weight is `1 - |queryLatitude - recordLatitude| / 180` exactly when
the query's latitude string parses, and exactly 1 otherwise; symmetrically for the
longitude weight with divisor 360. -/
theorem geo_weights_formula (query : cityQuery) (record : List String) :
    (∀ ql : ℚ, parseFloat? query.latitude = some ql →
      computeLatitudeScoreWeight query record = 1 - |ql - fetchLatitude record| / 180) ∧
    (parseFloat? query.latitude = none → computeLatitudeScoreWeight query record = 1) ∧
    (∀ qg : ℚ, parseFloat? query.longitude = some qg →
      computeLongitudeScoreWeight query record = 1 - |qg - fetchLongitude record| / 360) ∧
    (parseFloat? query.longitude = none → computeLongitudeScoreWeight query record = 1) := by
  refine ⟨fun ql hql => ?_, fun hn => ?_, fun qg hqg => ?_, fun hn => ?_⟩
  · simp only [computeLatitudeScoreWeight, hql, qSub_eq, qDiv_eq, qAbs_eq]
  · simp only [computeLatitudeScoreWeight, hn]
  · simp only [computeLongitudeScoreWeight, hqg, qSub_eq, qDiv_eq, qAbs_eq]
  · simp only [computeLongitudeScoreWeight, hn]

/-- Witness for C4: both branches of each axis at concrete inputs. -/
theorem geo_weights_formula_witness :
    computeLatitudeScoreWeight ⟨"q", "90", ""⟩ [] = 1 - |(90 : ℚ) - fetchLatitude []| / 180 ∧
    computeLatitudeScoreWeight ⟨"q", "", ""⟩ [] = 1 ∧
    computeLongitudeScoreWeight ⟨"q", "", "45"⟩ [] = 1 - |(45 : ℚ) - fetchLongitude []| / 360 ∧
    computeLongitudeScoreWeight ⟨"q", "", "abc"⟩ [] = 1 :=
  ⟨(geo_weights_formula ⟨"q", "90", ""⟩ []).1 90 (by decide),
   (geo_weights_formula ⟨"q", "", ""⟩ []).2.1 (by decide),
   (geo_weights_formula ⟨"q", "", "45"⟩ []).2.2.1 45 (by decide),
   (geo_weights_formula ⟨"q", "", "abc"⟩ []).2.2.2 (by decide)⟩

/-- C5: the matching-character weight is the code-point count of the query name divided
by the code-point count of the matched word, hence exactly 1 whenever the two counts
agree.  Rune counts are `data.length`, never UTF-8 byte length.  The matched word is
never empty at the call sites (it contains the non-empty query name), which the
hypothesis records. -/
theorem matchingCharWeight_ratio (queryName matchedWord : String)
    (h : matchedWord.data ≠ []) :
    computeMatchingCharWeight queryName matchedWord =
      (queryName.data.length : ℚ) / (matchedWord.data.length : ℚ) ∧
    (queryName.data.length = matchedWord.data.length →
      computeMatchingCharWeight queryName matchedWord = 1) := by
  have e : computeMatchingCharWeight queryName matchedWord =
      (queryName.data.length : ℚ) / (matchedWord.data.length : ℚ) := by
    rw [computeMatchingCharWeight, qDiv_eq]
  have hne : ((matchedWord.data.length : ℚ)) ≠ 0 := by
    exact_mod_cast (List.length_pos.mpr h).ne'
  exact ⟨e, fun hlen => by rw [e, hlen, div_self hne]⟩

/-- Witness for C5, on a non-ASCII name whose byte length differs from its rune count. -/
theorem matchingCharWeight_ratio_witness :
    computeMatchingCharWeight "héllo" "héllo" = 1 ∧
    computeMatchingCharWeight "par" "Paris" = 3 / 5 := by
  constructor
  · exact (matchingCharWeight_ratio "héllo" "héllo" (by decide)).2 rfl
  · rw [(matchingCharWeight_ratio "par" "Paris" (by decide)).1]
    norm_num

/-- C6: a query with an empty name yields the empty suggestion list for every record
store, and the scan never touches a record (the result is the same even for stores whose
rows would abort the matcher). -/
theorem emptyName_no_scan (records : List (List String)) (query : cityQuery)
    (h : query.name = "") :
    findSuggestionsFor records query = some ⟨[]⟩ ∧
    FindRankedSuggestionsFor records query = some ⟨[]⟩ := by
  have h1 : findSuggestionsFor records query = some ⟨[]⟩ := by
    rw [findSuggestionsFor, if_pos h]
  exact ⟨h1, by rw [FindRankedSuggestionsFor, h1]; rfl⟩

/-- Witness for C6, on a store whose only row would abort the matcher if scanned. -/
theorem emptyName_no_scan_witness :
    findSuggestionsFor [["x"]] ⟨"", "bad", "bad"⟩ = some ⟨[]⟩ ∧
    FindRankedSuggestionsFor [["x"]] ⟨"", "bad", "bad"⟩ = some ⟨[]⟩ :=
  emptyName_no_scan [["x"]] ⟨"", "bad", "bad"⟩ rfl

/-- C7: fields are tested in the priority order primary name, ASCII name, alternate
names, and the first match fixes the matched word.  Part one: a primary-name match
returns immediately with the primary name as matched word — the ASCII and
alternate-names fields are never inspected (the result is normal even when those fields
are missing from the row).  Part two: a record whose primary and ASCII names do not
contain the query still matches via the alternate-names field. -/
theorem match_priority_order :
    (∀ (record : List String) (query : cityQuery),
      strContains (goToLower (fetchCityNameOf record)) query.name = true →
      matchQueryName record query =
        some (true, computeScoreFor query (fetchCityNameOf record) record)) ∧
    (∀ (record : List String) (query : cityQuery) (asciiName alternateNames w : String),
      record[cityASCIINameIndex]? = some asciiName →
      record[cityAlernateNamesIndex]? = some alternateNames →
      strContains (goToLower (fetchCityNameOf record)) query.name = false →
      strContains (goToLower asciiName) query.name = false →
      strContains (goToLower alternateNames) query.name = true →
      findMatchingAlternateNameWholeWord alternateNames query.name = some w →
      matchQueryName record query = some (true, computeScoreFor query w record)) := by
  constructor
  · intro record query h
    simp [matchQueryName, h]
  · intro record query asciiName alternateNames w h2 h3 hp ha halt hw
    simp [matchQueryName, hp, h2, h3, ha, halt, hw]

/-- Witness for C7: a primary-name match succeeds on a two-field row (so the missing
ASCII field is provably not inspected), and an alternate-names match succeeds when the
first two name fields do not contain the query. -/
theorem match_priority_order_witness :
    matchQueryName ["x", "Paris"] ⟨"paris", "", ""⟩ =
      some (true, computeScoreFor ⟨"paris", "", ""⟩ "Paris" ["x", "Paris"]) ∧
    matchQueryName ["0", "A", "B", "Springfield,Springfield Town,New Springfield"]
        ⟨"field", "", ""⟩ =
      some (true, computeScoreFor ⟨"field", "", ""⟩ "Springfield"
        ["0", "A", "B", "Springfield,Springfield Town,New Springfield"]) :=
  ⟨match_priority_order.1 ["x", "Paris"] ⟨"paris", "", ""⟩ (by decide),
   match_priority_order.2 ["0", "A", "B", "Springfield,Springfield Town,New Springfield"]
     ⟨"field", "", ""⟩ "B" "Springfield,Springfield Town,New Springfield" "Springfield"
     (by decide) (by decide) (by decide) (by decide) (by decide) (by decide)⟩

/-- C8: matching is case-insensitive — the pipeline lower-cases the query name (as
`findSuggestionsFor` does before calling the matcher) and compares it against
lower-cased record fields, so any query name equal to a contiguous substring of the
primary name up to letter case makes the record match. -/
theorem match_case_insensitive (record : List String) (queryName sub lat lon : String)
    (hsub : sub.data <:+: (fetchCityNameOf record).data)
    (hcase : goToLower sub = goToLower queryName) :
    matchQueryName record ⟨goToLower queryName, lat, lon⟩ =
      some (true, computeScoreFor ⟨goToLower queryName, lat, lon⟩
        (fetchCityNameOf record) record) := by
  have hc : strContains (goToLower (fetchCityNameOf record)) (goToLower queryName) = true := by
    have h1 : (goToLower queryName).data = sub.data.map Char.toLower := by
      rw [← hcase]; rfl
    rw [strContains, h1]
    exact decide_eq_true (infixOfMap hsub)
  simp [matchQueryName, hc]

/-- Witness for C8: query "PARIS" matches the record whose primary name is "Paris". -/
theorem match_case_insensitive_witness :
    matchQueryName ["x", "Paris"] ⟨goToLower "PARIS", "", ""⟩ =
      some (true, computeScoreFor ⟨goToLower "PARIS", "", ""⟩ "Paris" ["x", "Paris"]) :=
  match_case_insensitive ["x", "Paris"] "PARIS" "Paris" "" "" (by decide) (by decide)

/-- C9: on a store holding exactly the Paris record, the query
{name "paris", empty coordinate hints} returns one suggestion, displayed as
"Paris, A8, FR" (city name, admin level 1 code, country code), with score 1. -/
theorem paris_scenario :
    FindRankedSuggestionsFor
      [["id", "Paris", "Paris", "", "48.8566", "2.3522", "", "", "FR", "", "A8"]]
      ⟨"paris", "", ""⟩ =
    some ⟨[⟨"Paris, A8, FR", 48.8566, 2.3522, 1⟩]⟩ := by
  rw [show (48.8566 : ℚ) = mkRat 488566 10000 by rw [Rat.mkRat_eq_div]; norm_num,
    show (2.3522 : ℚ) = mkRat 23522 10000 by rw [Rat.mkRat_eq_div]; norm_num]
  decide

/-- C10: when the query coordinate parses but the record's coordinate field is absent or
unparsable, the record coordinate is taken as 0 (the accessor's default), so the weight
is `1 - |query - 0| / divisor` rather than the neutral 1; neutrality is reserved for
unparsable query hints.  (`record.getD i ""` is the record field when present and the
empty — unparsable — string when the row is short.) -/
theorem record_coordinate_default_penalty (query : cityQuery) (record : List String) :
    (∀ ql : ℚ, parseFloat? query.latitude = some ql →
      parseFloat? (record.getD cityLatitudeIndex "") = none →
      computeLatitudeScoreWeight query record = 1 - |ql - 0| / 180) ∧
    (∀ qg : ℚ, parseFloat? query.longitude = some qg →
      parseFloat? (record.getD cityLongitudeIndex "") = none →
      computeLongitudeScoreWeight query record = 1 - |qg - 0| / 360) := by
  constructor
  · intro ql hql hrec
    have hlat : fetchLatitude record = 0 := by
      rw [fetchLatitude]
      split
      · next hin =>
          rw [List.getD_eq_getElem record "" hin] at hrec
          rw [hrec]
          rfl
      · rfl
    simp only [computeLatitudeScoreWeight, hql, hlat, qSub_eq, qDiv_eq, qAbs_eq]
  · intro qg hqg hrec
    have hlon : fetchLongitude record = 0 := by
      rw [fetchLongitude]
      split
      · next hin =>
          rw [List.getD_eq_getElem record "" hin] at hrec
          rw [hrec]
          rfl
      · rfl
    simp only [computeLongitudeScoreWeight, hqg, hlon, qSub_eq, qDiv_eq, qAbs_eq]

/-- Witness for C10: parsing query hints against a row whose coordinate fields hold
unparsable text. -/
theorem record_coordinate_default_penalty_witness :
    computeLatitudeScoreWeight ⟨"q", "90", ""⟩ ["a", "b", "c", "d", "xx", "yy"] =
      1 - |(90 : ℚ) - 0| / 180 ∧
    computeLongitudeScoreWeight ⟨"q", "", "45"⟩ ["a", "b", "c", "d", "xx", "yy"] =
      1 - |(45 : ℚ) - 0| / 360 :=
  ⟨(record_coordinate_default_penalty ⟨"q", "90", ""⟩ ["a", "b", "c", "d", "xx", "yy"]).1
      90 (by decide) (by decide),
   (record_coordinate_default_penalty ⟨"q", "", "45"⟩ ["a", "b", "c", "d", "xx", "yy"]).2
      45 (by decide) (by decide)⟩
